import Mathlib

/-!
# Verification of the Expense-Splitter ledger-and-settlement engine

Shallow embedding of the core of the Expense-Splitter application
(`src/lib/calculations.ts` and `src/lib/storage.ts`) over exact rational
arithmetic, together with proofs and refutations of the specification's
testable properties.

JavaScript's `Math.round(x * 100) / 100` (round to two decimals, ties
toward positive infinity) is modelled as `round2` via the integer floor.
Thrown validation errors are modelled with `Except`.
-/

namespace ExpenseSplitter

/-- Two-decimal rounding, `Math.round(x * 100) / 100` in the source
(`Math.round` is `⌊x + 1/2⌋` for JavaScript numbers). -/
def round2 (x : ℚ) : ℚ := (⌊x * 100 + 1 / 2⌋ : ℚ) / 100

/-- `storage.ts` line 269: `toRounded` is the same two-decimal rounding,
defined locally inside `deleteMemberExpenses`. -/
def toRounded (value : ℚ) : ℚ := round2 value

/-- The `splitType` field of an expense (`'equal' | 'percentage' | 'fixed'`). -/
inductive SplitType where
  | equal : SplitType
  | percentage : SplitType
  | fixed : SplitType
deriving DecidableEq

/-- One member's share of an expense
(`{ memberId: string; amount: number; percentage?: number }`). -/
structure Split where
  memberId : String
  amount : ℚ
  percentage : Option ℚ
deriving DecidableEq

/-- An expense record (the fields of `ExpenseSplitDB['expenses']['value']`
that the engine reads: `amount`, `paidBy`, `splitType`, `splits`). -/
structure Expense where
  amount : ℚ
  paidBy : String
  splitType : SplitType
  splits : List Split
deriving DecidableEq

/-- A settlement record (the fields the engine reads:
`fromMember`, `toMember`, `amount`). -/
structure Settlement where
  fromMember : String
  toMember : String
  amount : ℚ
deriving DecidableEq

/-- `Balance` from `calculations.ts`: `{ memberId: string; amount: number }`. -/
structure Balance where
  memberId : String
  amount : ℚ
deriving DecidableEq

/-- `SimplifiedDebt` from `calculations.ts`. -/
structure SimplifiedDebt where
  fromMember : String
  toMember : String
  amount : ℚ
deriving DecidableEq

/-- One entry of the `customSplits` argument of `calculateExpenseSplits`
(`{ memberId: string; value: number }`). -/
structure CustomSplit where
  memberId : String
  value : ℚ
deriving DecidableEq

/-! ## `calculateBalances` (calculations.ts, lines 33-68)

The mutable `Record<string, number>` is modelled as a total function
`String → ℚ`; every read in the source goes through `balances[k] || 0`,
so the default-zero total function is an exact model of the record. -/

/-- `balances[split.memberId] = (balances[split.memberId] || 0) - split.amount`. -/
def applySplitToBalances (balances : String → ℚ) (s : Split) : String → ℚ :=
  Function.update balances s.memberId (balances s.memberId - s.amount)

/-- Process one expense: credit the payer with the full amount, then debit
every share-holder by the share amount (lines 45-53). -/
def applyExpenseToBalances (balances : String → ℚ) (e : Expense) : String → ℚ :=
  let credited := Function.update balances e.paidBy (balances e.paidBy + e.amount)
  e.splits.foldl applySplitToBalances credited

/-- Process one settlement: credit `fromMember`, debit `toMember` (lines 56-61). -/
def applySettlementToBalances (balances : String → ℚ) (s : Settlement) : String → ℚ :=
  let credited := Function.update balances s.fromMember (balances s.fromMember + s.amount)
  Function.update credited s.toMember (credited s.toMember - s.amount)

/-- Initialize all listed members' balances to zero (lines 39-42). -/
def initialBalances (members : List String) : String → ℚ :=
  members.foldl (fun acc m => Function.update acc m 0) (fun _ => 0)

/-- The balance record after all expenses and settlements are processed. -/
def finalBalances (members : List String) (expenses : List Expense)
    (settlements : List Settlement) : String → ℚ :=
  settlements.foldl applySettlementToBalances
    (expenses.foldl applyExpenseToBalances (initialBalances members))

/-- `calculateBalances`: one `Balance` per member passed in (lines 64-67). -/
def calculateBalances (members : List String) (expenses : List Expense)
    (settlements : List Settlement) : List Balance :=
  members.map fun memberId => ⟨memberId, finalBalances members expenses settlements memberId⟩

/-! ## `simplifyDebts` (calculations.ts, lines 80-122)

`Array.prototype.sort` with comparator `(a, b) => b.amount - a.amount` is a
stable descending sort; it is modelled by left-to-right insertion placing each
element after all already-placed elements of greater-or-equal amount. -/

/-- Insert a balance into a descending-sorted list, after all elements with
greater-or-equal amount (preserving input order between equal amounts). -/
def insertDescByAmount (b : Balance) : List Balance → List Balance
  | [] => [b]
  | c :: rest => if b.amount ≤ c.amount then c :: insertDescByAmount b rest else b :: c :: rest

/-- Stable sort by amount, descending. -/
def sortByAmountDesc (l : List Balance) : List Balance :=
  l.foldl (fun acc b => insertDescByAmount b acc) []

/-- Creditors: balances with `amount > 0.01`, sorted descending (lines 84-87). -/
def creditorsOf (balances : List Balance) : List Balance :=
  sortByAmountDesc (balances.filter fun b => b.amount > 1 / 100)

/-- Debtors: balances with `amount < -0.01`, made positive, sorted descending
(lines 89-92). -/
def debtorsOf (balances : List Balance) : List Balance :=
  sortByAmountDesc ((balances.filter fun b => b.amount < -(1 / 100)).map
    fun b => ⟨b.memberId, -b.amount⟩)

/-- The two-cursor matching loop (lines 95-119).  Each iteration transfers
`min(creditor, debtor)`, emits a rounded `SimplifiedDebt` when that amount
exceeds `0.01`, and advances whichever side's remainder drops below `0.01`;
since the minimum is subtracted from both, at least one side always advances. -/
def matchDebts : List Balance → List Balance → List SimplifiedDebt
  | [], _ => []
  | _ :: _, [] => []
  | c :: cs, d :: ds =>
    let amount := min c.amount d.amount
    let emitted : List SimplifiedDebt :=
      if amount > 1 / 100 then [⟨d.memberId, c.memberId, round2 amount⟩] else []
    if c.amount ≤ d.amount then
      -- the creditor's remainder becomes 0 < 0.01, so the creditor cursor advances
      let dRem := d.amount - amount
      if dRem < 1 / 100 then emitted ++ matchDebts cs ds
      else emitted ++ matchDebts cs (⟨d.memberId, dRem⟩ :: ds)
    else
      -- the debtor's remainder becomes 0 < 0.01, so the debtor cursor advances
      let cRem := c.amount - amount
      if cRem < 1 / 100 then emitted ++ matchDebts cs ds
      else emitted ++ matchDebts (⟨c.memberId, cRem⟩ :: cs) ds
termination_by cl dl => cl.length + dl.length
decreasing_by
  all_goals simp only [List.length_cons]
  all_goals omega

/-- `simplifyDebts` (lines 80-122). -/
def simplifyDebts (balances : List Balance) : List SimplifiedDebt :=
  matchDebts (creditorsOf balances) (debtorsOf balances)

/-! ## `calculateExpenseSplits` (calculations.ts, lines 173-254) -/

/-- The validation errors thrown by `calculateExpenseSplits`.  `sumMismatch`
carries the expected and the actual total named in the thrown message. -/
inductive SplitError where
  | emptyMembers : SplitError
  | missingCustomSplits : SplitError
  | emptyCustomSplits : SplitError
  | invalidMember (memberId : String) : SplitError
  | sumMismatch (expected actual : ℚ) : SplitError
deriving DecidableEq

/-- `calculateExpenseSplits` (lines 173-254).  Thrown errors become
`Except.error`; the returned `splits` array becomes `Except.ok`. -/
def calculateExpenseSplits (totalAmount : ℚ) (members : List String)
    (splitType : SplitType) (customSplits : Option (List CustomSplit)) :
    Except SplitError (List Split) :=
  match splitType with
  | .equal =>
    if members = [] then .error .emptyMembers
    else
      let share := totalAmount / members.length
      let percentage := (100 : ℚ) / members.length
      .ok (members.map fun memberId => ⟨memberId, round2 share, some percentage⟩)
  | .percentage =>
    match customSplits with
    | none => .error .missingCustomSplits
    | some cs =>
      if cs = [] then .error .emptyCustomSplits
      else
        match cs.find? fun s => !(members.contains s.memberId) with
        | some bad => .error (.invalidMember bad.memberId)
        | none =>
          let totalPercentage := cs.foldl (fun sum s => sum + s.value) 0
          if |totalPercentage - 100| > 1 / 100 then .error (.sumMismatch 100 totalPercentage)
          else .ok (cs.map fun s =>
            ⟨s.memberId, round2 (totalAmount * s.value / 100), some s.value⟩)
  | .fixed =>
    match customSplits with
    | none => .error .missingCustomSplits
    | some cs =>
      if cs = [] then .error .emptyCustomSplits
      else
        match cs.find? fun s => !(members.contains s.memberId) with
        | some bad => .error (.invalidMember bad.memberId)
        | none =>
          let totalSplitAmount := cs.foldl (fun sum s => sum + s.value) 0
          if |totalSplitAmount - totalAmount| > 1 / 100 then
            .error (.sumMismatch totalAmount totalSplitAmount)
          else .ok (cs.map fun s =>
            ⟨s.memberId, round2 s.value, some (round2 (s.value / totalAmount * 100))⟩)

/-! ## `deleteMemberExpenses` (storage.ts, lines 256-404)

The redistribution logic is pure except for reading and writing the store;
it is modelled as a function from the group's expenses and settlements to
the rewritten expenses and the settlements marked for deletion. -/

/-- Look up a member's split.  `new Map(remainingSplits.map(s => [s.memberId, s]))`
keeps the **last** entry for a duplicated key, so lookup searches the
reversed list (storage.ts, line 294). -/
def lookupSplit (splits : List Split) (memberId : String) : Option Split :=
  splits.reverse.find? fun s => s.memberId = memberId

/-- Add `drift` to the last split's amount, re-rounding it
(`splits[splits.length - 1].amount = toRounded(... + drift)`). -/
def bumpLastAmount (drift : ℚ) : List Split → List Split
  | [] => []
  | [s] => [{ s with amount := toRounded (s.amount + drift) }]
  | s :: rest => s :: bumpLastAmount drift rest

/-- The repeated "fix rounding drift on the last member" block
(storage.ts, lines 281-285, 332-336, 370-374). -/
def applyDriftFix (target : ℚ) (splits : List Split) : List Split :=
  let sum := splits.foldl (fun acc s => acc + s.amount) 0
  let drift := toRounded (target - sum)
  if 0 < splits.length ∧ 0 < |drift| then bumpLastAmount drift splits else splits

/-- `buildEqualSplits` (storage.ts, lines 271-287): equal shares over the
remaining members with the drift fix applied. -/
def buildEqualSplits (normalizedMembers : List String) (total : ℚ) : List Split :=
  let count := normalizedMembers.length
  let base := toRounded (total / count)
  let splits := normalizedMembers.map fun memberId =>
    (⟨memberId, base, some (toRounded (100 / count))⟩ : Split)
  applyDriftFix total splits

/-- `redistributeExpense` (storage.ts, lines 289-381), parametrised by the
enclosing function's `memberName`, `fallbackPayer` and `normalizedMembers`. -/
def redistributeExpense (memberName fallbackPayer : String)
    (normalizedMembers : List String) (expense : Expense) : Expense :=
  if normalizedMembers = [] then expense
  else
    let paidBy := if expense.paidBy = memberName then fallbackPayer else expense.paidBy
    let remainingSplits := expense.splits.filter fun s => s.memberId ≠ memberName
    match expense.splitType with
    | .equal =>
      { expense with paidBy := paidBy, splits := buildEqualSplits normalizedMembers expense.amount }
    | .percentage =>
      let percents := normalizedMembers.map fun memberId =>
        let percent :=
          match lookupSplit remainingSplits memberId with
          | some s =>
            match s.percentage with
            | some p => p
            | none => s.amount / expense.amount * 100
          | none => 0
        (memberId, percent)
      let totalPercent := percents.foldl (fun acc p => acc + p.2) (0 : ℚ)
      if totalPercent ≤ 1 / 100 then
        { expense with paidBy := paidBy, splits := buildEqualSplits normalizedMembers expense.amount }
      else
        let normalized := percents.map fun p => (p.1, p.2 / totalPercent * 100)
        let splits := normalized.map fun p =>
          (⟨p.1, toRounded (expense.amount * p.2 / 100), some (toRounded p.2)⟩ : Split)
        { expense with paidBy := paidBy, splits := applyDriftFix expense.amount splits }
    | .fixed =>
      let fixedSplits := normalizedMembers.map fun memberId =>
        match lookupSplit remainingSplits memberId with
        | some s => (memberId, s.amount)
        | none => (memberId, (0 : ℚ))
      let currentTotal := fixedSplits.foldl (fun acc s => acc + s.2) (0 : ℚ)
      if currentTotal ≤ 1 / 100 then
        { expense with paidBy := paidBy, splits := buildEqualSplits normalizedMembers expense.amount }
      else
        let remainingAmount := expense.amount - currentTotal
        let share := toRounded (remainingAmount / normalizedMembers.length)
        let splits := fixedSplits.map fun s => (⟨s.1, toRounded (s.2 + share), none⟩ : Split)
        { expense with paidBy := paidBy, splits := applyDriftFix expense.amount splits }

/-- The pure output of `deleteMemberExpenses`: the rewritten expense list (in
the order of the group's expenses) and the settlements marked for deletion. -/
structure RemovalResult where
  updatedExpenses : List Expense
  settlementsToDelete : List Settlement
deriving DecidableEq

/-- `deleteMemberExpenses` (storage.ts, lines 256-404): expenses neither paid
by nor shared with the removed member are kept as-is, the rest are
redistributed; settlements touching the removed member are marked for
deletion. -/
def deleteMemberExpenses (memberName : String) (remainingMembers : List String)
    (fallbackPayer : String) (groupExpenses : List Expense)
    (groupSettlements : List Settlement) : RemovalResult :=
  let normalizedMembers := remainingMembers.filter fun m => m ≠ memberName
  let settlementsToDelete := groupSettlements.filter fun s =>
    s.fromMember = memberName ∨ s.toMember = memberName
  let updatedExpenses := groupExpenses.map fun expense =>
    if expense.paidBy ≠ memberName ∧ ∀ s ∈ expense.splits, s.memberId ≠ memberName then expense
    else redistributeExpense memberName fallbackPayer normalizedMembers expense
  ⟨updatedExpenses, settlementsToDelete⟩

/-! ## Claim-side helpers -/

/-- Sum of the share amounts of a split list. -/
def sumAmounts (splits : List Split) : ℚ := (splits.map (·.amount)).sum

/-- Sum of the balance amounts of a balance list. -/
def sumBalances (balances : List Balance) : ℚ := (balances.map (·.amount)).sum

/-- Apply a list of simplified debts to one balance, as the spec's settlement
property reads them: each debt adds its amount to `fromMember`'s balance and
subtracts it from `toMember`'s. -/
def applyDebts (debts : List SimplifiedDebt) (b : Balance) : Balance :=
  ⟨b.memberId,
    debts.foldl (fun acc t =>
      let acc1 := if t.fromMember = b.memberId then acc + t.amount else acc
      if t.toMember = b.memberId then acc1 - t.amount else acc1) b.amount⟩

/-- A rational that is a whole number of cents (an integer multiple of `1/100`),
the shape of every stored currency amount. -/
def IsCent (q : ℚ) : Prop := ∃ k : ℤ, q = k / 100

/-- Sum of the values of a `customSplits` argument. -/
def sumValues (l : List CustomSplit) : ℚ := (l.map (·.value)).sum

/-- Projection of a share to the pair the claims talk about: who and how much. -/
def sharePair (s : Split) : String × ℚ := (s.memberId, s.amount)

/-- Add a drift to the last pair's amount (exact, no re-rounding). -/
def bumpLastPair (drift : ℚ) : List (String × ℚ) → List (String × ℚ)
  | [] => []
  | [p] => [(p.1, p.2 + drift)]
  | p :: rest => p :: bumpLastPair drift rest

/-- The percentage-redistribution rule exactly as the specification words it
(spec §4.4, claim C7): take each remaining member's original percentage, or
derive it as `amount/total*100`, or `0` without a share; fall back to the Equal
algorithm when the remaining percentages sum to at most `0.01`; otherwise scale
the percentages to sum to `100`, set each amount to
`round2(total * normalizedPct / 100)`, and add the rounding drift to the last
remaining member. -/
def specPercentageRedistribution (memberName : String) (normalizedMembers : List String)
    (e : Expense) : List (String × ℚ) :=
  let remainingSplits := e.splits.filter fun s => s.memberId ≠ memberName
  let pct : String → ℚ := fun memberId =>
    match lookupSplit remainingSplits memberId with
    | some s =>
      match s.percentage with
      | some p => p
      | none => s.amount / e.amount * 100
    | none => 0
  let totalPercent := (normalizedMembers.map pct).sum
  if totalPercent ≤ 1 / 100 then
    (buildEqualSplits normalizedMembers e.amount).map sharePair
  else
    let base := normalizedMembers.map fun memberId =>
      (memberId, round2 (e.amount * (pct memberId / totalPercent * 100) / 100))
    bumpLastPair (e.amount - (base.map Prod.snd).sum) base

/-- Net effect of one expense on the sum of all balances. -/
def expenseDelta (e : Expense) : ℚ := e.amount - sumAmounts e.splits

/-- Sum of a balance function over a member list. -/
def sumOver (members : List String) (f : String → ℚ) : ℚ := (members.map f).sum

/-! ## Numeric lemmas about two-decimal rounding -/

theorem round2_sub_abs_le (x : ℚ) : |round2 x - x| ≤ 1 / 200 := by
  have h1 : (⌊x * 100 + 1 / 2⌋ : ℚ) ≤ x * 100 + 1 / 2 := Int.floor_le _
  have h2 : x * 100 + 1 / 2 - 1 < (⌊x * 100 + 1 / 2⌋ : ℚ) := Int.sub_one_lt_floor _
  rw [round2, abs_le]
  constructor
  · linarith
  · linarith

theorem round2_eq_zero_abs_le {x : ℚ} (h : round2 x = 0) : |x| ≤ 1 / 200 := by
  have h1 := round2_sub_abs_le x
  rw [h, zero_sub, abs_neg] at h1
  exact h1

theorem isCent_round2 (x : ℚ) : IsCent (round2 x) := ⟨⌊x * 100 + 1 / 2⌋, rfl⟩

theorem IsCent.add {x y : ℚ} (hx : IsCent x) (hy : IsCent y) : IsCent (x + y) := by
  obtain ⟨a, rfl⟩ := hx
  obtain ⟨b, rfl⟩ := hy
  exact ⟨a + b, by push_cast; ring⟩

theorem IsCent.sub {x y : ℚ} (hx : IsCent x) (hy : IsCent y) : IsCent (x - y) := by
  obtain ⟨a, rfl⟩ := hx
  obtain ⟨b, rfl⟩ := hy
  exact ⟨a - b, by push_cast; ring⟩

theorem isCent_zero : IsCent 0 := ⟨0, by norm_num⟩

theorem isCent_sum {l : List ℚ} (h : ∀ q ∈ l, IsCent q) : IsCent l.sum := by
  induction l with
  | nil => simpa using isCent_zero
  | cons x t ih =>
    rw [List.sum_cons]
    exact (h x (List.mem_cons_self x t)).add (ih fun q hq => h q (List.mem_cons_of_mem x hq))

theorem IsCent.round2_eq {q : ℚ} (h : IsCent q) : round2 q = q := by
  obtain ⟨k, rfl⟩ := h
  rw [round2]
  have hk : (k : ℚ) / 100 * 100 + 1 / 2 = (k : ℚ) + 1 / 2 := by ring
  rw [hk, Int.floor_int_add]
  norm_num

theorem foldl_add_eq_sum {α : Type} (f : α → ℚ) :
    ∀ (l : List α) (a : ℚ), l.foldl (fun acc x => acc + f x) a = a + (l.map f).sum := by
  intro l
  induction l with
  | nil => intro a; simp
  | cons x t ih => intro a; simp [ih, add_assoc]

theorem sum_map_mul_left {α : Type} (b : ℚ) (f : α → ℚ) (l : List α) :
    (l.map fun x => b * f x).sum = b * (l.map f).sum := by
  induction l with
  | nil => simp
  | cons x t ih => simp [ih]; ring

theorem sum_map_const {α : Type} (l : List α) (c : ℚ) :
    (l.map fun _ => c).sum = (l.length : ℚ) * c := by
  induction l with
  | nil => simp
  | cons x t ih =>
    simp only [List.map_cons, List.sum_cons, List.length_cons, ih]
    push_cast
    ring

theorem abs_sum_map_round2_sub (l : List ℚ) :
    |(l.map round2).sum - l.sum| ≤ (l.length : ℚ) * (1 / 200) := by
  induction l with
  | nil => simp
  | cons x t ih =>
    have hx := round2_sub_abs_le x
    simp only [List.map_cons, List.sum_cons, List.length_cons]
    have e : round2 x + (t.map round2).sum - (x + t.sum)
        = (round2 x - x) + ((t.map round2).sum - t.sum) := by ring
    rw [e]
    push_cast
    calc |(round2 x - x) + ((t.map round2).sum - t.sum)|
        ≤ |round2 x - x| + |(t.map round2).sum - t.sum| := abs_add _ _
      _ ≤ 1 / 200 + (t.length : ℚ) * (1 / 200) := add_le_add hx ih
      _ = ((t.length : ℚ) + 1) * (1 / 200) := by ring

theorem abs_sum_le_length_mul {α : Type} (f : α → ℚ) (c : ℚ) :
    ∀ (l : List α), (∀ x ∈ l, |f x| ≤ c) → |(l.map f).sum| ≤ (l.length : ℚ) * c := by
  intro l
  induction l with
  | nil => intro _; simp
  | cons x t ih =>
    intro h
    simp only [List.map_cons, List.sum_cons, List.length_cons]
    push_cast
    calc |f x + (t.map f).sum| ≤ |f x| + |(t.map f).sum| := abs_add _ _
      _ ≤ c + (t.length : ℚ) * c :=
          add_le_add (h x (List.mem_cons_self x t)) (ih fun y hy => h y (List.mem_cons_of_mem x hy))
      _ = ((t.length : ℚ) + 1) * c := by ring

/-! ## C3: the Equal policy of `calculateExpenseSplits` -/

theorem equalSplits_eq (t : ℚ) (members : List String)
    (cs : Option (List CustomSplit)) (h : members ≠ []) :
    calculateExpenseSplits t members .equal cs =
      .ok (members.map fun memberId =>
        (⟨memberId, round2 (t / members.length), some (100 / members.length)⟩ : Split)) := by
  simp [calculateExpenseSplits, h]

/-- **C3** (amended): for every total and non-empty member list the Equal policy
gives each member the share `round2(total / n)` with percentage `100 / n`, and
applies **no** drift correction: the share list is exactly the uniform rounded
list, so its sum is `n * round2(total / n)`, which need not equal the total. -/
theorem calculateExpenseSplits_equal_eq (t : ℚ) (members : List String)
    (cs : Option (List CustomSplit)) (h : members ≠ []) :
    calculateExpenseSplits t members .equal cs =
      .ok (members.map fun memberId =>
        (⟨memberId, round2 (t / members.length), some (100 / members.length)⟩ : Split)) :=
  equalSplits_eq t members cs h

/-- Witness for `calculateExpenseSplits_equal_eq` at total `100`,
members `[A, B, C]`: every share is `33.33` with percentage `100/3`. -/
theorem calculateExpenseSplits_equal_eq_witness :
    (["A", "B", "C"] : List String) ≠ [] ∧
      calculateExpenseSplits 100 ["A", "B", "C"] .equal none =
        .ok [⟨"A", 3333 / 100, some (100 / 3)⟩, ⟨"B", 3333 / 100, some (100 / 3)⟩,
             ⟨"C", 3333 / 100, some (100 / 3)⟩] := by
  refine ⟨by decide, ?_⟩
  rw [calculateExpenseSplits_equal_eq 100 ["A", "B", "C"] none (by decide)]
  norm_num [round2]

/-- Counterexample to **C3** as stated: splitting `100` equally among
`[A, B, C]` yields `33.33` for every member — the last member's share is *not*
`33.34` and the shares sum to `99.99`, not to the total. -/
theorem calculateExpenseSplits_equal_counterexample :
    calculateExpenseSplits 100 ["A", "B", "C"] .equal none =
      .ok [⟨"A", 3333 / 100, some (100 / 3)⟩, ⟨"B", 3333 / 100, some (100 / 3)⟩,
           ⟨"C", 3333 / 100, some (100 / 3)⟩] ∧
    sumAmounts [⟨"A", 3333 / 100, some (100 / 3)⟩, ⟨"B", 3333 / 100, some (100 / 3)⟩,
           ⟨"C", 3333 / 100, some (100 / 3)⟩] = 9999 / 100 ∧
    ((9999 : ℚ) / 100) ≠ 100 := by
  refine ⟨?_, by norm_num [sumAmounts], by norm_num⟩
  norm_num +decide [calculateExpenseSplits, round2]

/-! ## C1: sum of the returned shares versus the total -/

/-- **C1** (amended): whenever `calculateExpenseSplits` returns a share list
for a positive total, the sum of the share amounts differs from the total by
at most `n * 0.005 + 0.01 + total/10000`, where `n` is the number of shares
(no uniform `0.01` bound holds, see the counterexample). -/
theorem calculateExpenseSplits_sum_close (t : ℚ) (members : List String)
    (ty : SplitType) (cs : Option (List CustomSplit)) (splits : List Split)
    (ht : 0 < t) (h : calculateExpenseSplits t members ty cs = .ok splits) :
    |sumAmounts splits - t| ≤ (splits.length : ℚ) * (1 / 200) + 1 / 100 + t / 10000 := by
  cases ty with
  | equal =>
    by_cases hm : members = []
    · simp [calculateExpenseSplits, hm] at h
    · rw [equalSplits_eq t members cs hm] at h
      have hs := (Except.ok.inj h).symm
      subst hs
      have hn : (0 : ℚ) < (members.length : ℚ) := by
        exact_mod_cast List.length_pos.mpr hm
      have e1 : sumAmounts (members.map fun memberId =>
          (⟨memberId, round2 (t / members.length), some (100 / members.length)⟩ : Split))
          = (members.length : ℚ) * round2 (t / members.length) := by
        simp only [sumAmounts, List.map_map]
        rw [show ((fun s : Split => s.amount) ∘ fun memberId =>
          (⟨memberId, round2 (t / members.length), some (100 / members.length)⟩ : Split))
          = fun _ => round2 (t / members.length) from rfl]
        exact sum_map_const members _
      rw [e1]
      have e2 : (members.length : ℚ) * (t / members.length) = t := by
        field_simp
      have e3 : (members.length : ℚ) * round2 (t / members.length) - t
          = (members.length : ℚ) * (round2 (t / members.length) - t / members.length) := by
        rw [mul_sub, e2]
      rw [e3, abs_mul, abs_of_pos hn]
      have hb := round2_sub_abs_le (t / members.length)
      have hb2 : (members.length : ℚ) * |round2 (t / members.length) - t / members.length|
          ≤ (members.length : ℚ) * (1 / 200) := mul_le_mul_of_nonneg_left hb hn.le
      have hlen : ((members.map fun memberId =>
          (⟨memberId, round2 (t / members.length), some (100 / members.length)⟩ : Split)).length : ℚ)
          = (members.length : ℚ) := by simp
      rw [hlen]
      linarith
  | percentage =>
    cases cs with
    | none => simp [calculateExpenseSplits] at h
    | some l =>
      simp only [calculateExpenseSplits] at h
      split at h
      next => exact absurd h (by simp)
      next hl =>
        split at h
        next bad hbad => exact absurd h (by simp)
        next hfind =>
          split at h
          next hsum => exact absurd h (by simp)
          next hsum =>
            have hok := (Except.ok.inj h).symm
            subst hok
            have hv : |sumValues l - 100| ≤ 1 / 100 := by
              rw [not_lt] at hsum
              rw [foldl_add_eq_sum (fun s : CustomSplit => s.value) l 0, zero_add] at hsum
              exact hsum
            have e1 : sumAmounts (l.map fun s =>
                (⟨s.memberId, round2 (t * s.value / 100), some s.value⟩ : Split))
                = ((l.map fun s => t * s.value / 100).map round2).sum := by
              simp only [sumAmounts, List.map_map]
              rfl
            rw [e1]
            have e2 := abs_sum_map_round2_sub (l.map fun s => t * s.value / 100)
            have e3 : (l.map fun s : CustomSplit => t * s.value / 100).sum
                = (t / 100) * sumValues l := by
              rw [show (fun s : CustomSplit => t * s.value / 100)
                = fun s : CustomSplit => (t / 100) * s.value from funext fun s => by ring]
              rw [sum_map_mul_left]
              rfl
            have e4 : |(t / 100) * sumValues l - t| ≤ t / 10000 := by
              have : (t / 100) * sumValues l - t = (t / 100) * (sumValues l - 100) := by ring
              rw [this, abs_mul, abs_of_pos (by positivity : (0 : ℚ) < t / 100)]
              calc t / 100 * |sumValues l - 100| ≤ t / 100 * (1 / 100) :=
                    mul_le_mul_of_nonneg_left hv (by positivity)
                _ = t / 10000 := by ring
            have tri := abs_sub_le ((l.map fun s => t * s.value / 100).map round2).sum
              ((l.map fun s : CustomSplit => t * s.value / 100).sum) t
            rw [e3] at tri e2
            have hlen : (((l.map fun s =>
                (⟨s.memberId, round2 (t * s.value / 100), some s.value⟩ : Split))).length : ℚ)
                = (l.length : ℚ) := by simp
            rw [hlen]
            have hlen2 : (((l.map fun s : CustomSplit => t * s.value / 100)).length : ℚ)
                = (l.length : ℚ) := by simp
            rw [hlen2] at e2
            linarith
  | fixed =>
    cases cs with
    | none => simp [calculateExpenseSplits] at h
    | some l =>
      simp only [calculateExpenseSplits] at h
      split at h
      next => exact absurd h (by simp)
      next hl =>
        split at h
        next bad hbad => exact absurd h (by simp)
        next hfind =>
          split at h
          next hsum => exact absurd h (by simp)
          next hsum =>
            have hok := (Except.ok.inj h).symm
            subst hok
            have hv : |sumValues l - t| ≤ 1 / 100 := by
              rw [not_lt] at hsum
              rw [foldl_add_eq_sum (fun s : CustomSplit => s.value) l 0, zero_add] at hsum
              exact hsum
            have e1 : sumAmounts (l.map fun s =>
                (⟨s.memberId, round2 s.value, some (round2 (s.value / t * 100))⟩ : Split))
                = ((l.map fun s : CustomSplit => s.value).map round2).sum := by
              simp only [sumAmounts, List.map_map]
              rfl
            rw [e1]
            have e2 := abs_sum_map_round2_sub (l.map fun s : CustomSplit => s.value)
            have tri := abs_sub_le ((l.map fun s : CustomSplit => s.value).map round2).sum
              ((l.map fun s : CustomSplit => s.value).sum) t
            have hlen : (((l.map fun s =>
                (⟨s.memberId, round2 s.value, some (round2 (s.value / t * 100))⟩ : Split))).length : ℚ)
                = (l.length : ℚ) := by simp
            rw [hlen]
            have hlen2 : (((l.map fun s : CustomSplit => s.value)).length : ℚ)
                = (l.length : ℚ) := by simp
            rw [hlen2] at e2
            have hvv : |(l.map fun s : CustomSplit => s.value).sum - t| ≤ 1 / 100 := hv
            nlinarith [ht]

/-- Witness for `calculateExpenseSplits_sum_close`: splitting `100` equally
between `A` and `B` yields two shares of `50` whose sum is within the bound. -/
theorem calculateExpenseSplits_sum_close_witness :
    (0 : ℚ) < 100 ∧
      calculateExpenseSplits 100 ["A", "B"] .equal none =
        .ok [⟨"A", 50, some 50⟩, ⟨"B", 50, some 50⟩] ∧
      |sumAmounts [⟨"A", 50, some 50⟩, ⟨"B", 50, some 50⟩] - 100| ≤
        (([⟨"A", 50, some 50⟩, ⟨"B", 50, some 50⟩] : List Split).length : ℚ) * (1 / 200)
          + 1 / 100 + 100 / 10000 := by
  have hok : calculateExpenseSplits 100 ["A", "B"] .equal none =
      .ok [⟨"A", 50, some 50⟩, ⟨"B", 50, some 50⟩] := by
    norm_num +decide [calculateExpenseSplits, round2]
  exact ⟨by norm_num, hok,
    calculateExpenseSplits_sum_close 100 ["A", "B"] .equal none _ (by norm_num) hok⟩

/-- Counterexample to **C1** as stated: splitting `100` equally among seven
members succeeds with seven shares of `14.29`, which sum to `100.03` — more
than `0.01` away from the total. -/
theorem calculateExpenseSplits_sum_counterexample :
    (0 : ℚ) < 100 ∧
      calculateExpenseSplits 100 ["A", "B", "C", "D", "E", "F", "G"] .equal none =
        .ok [⟨"A", 1429 / 100, some (100 / 7)⟩, ⟨"B", 1429 / 100, some (100 / 7)⟩,
             ⟨"C", 1429 / 100, some (100 / 7)⟩, ⟨"D", 1429 / 100, some (100 / 7)⟩,
             ⟨"E", 1429 / 100, some (100 / 7)⟩, ⟨"F", 1429 / 100, some (100 / 7)⟩,
             ⟨"G", 1429 / 100, some (100 / 7)⟩] ∧
      ¬(|sumAmounts [⟨"A", 1429 / 100, some (100 / 7)⟩, ⟨"B", 1429 / 100, some (100 / 7)⟩,
             ⟨"C", 1429 / 100, some (100 / 7)⟩, ⟨"D", 1429 / 100, some (100 / 7)⟩,
             ⟨"E", 1429 / 100, some (100 / 7)⟩, ⟨"F", 1429 / 100, some (100 / 7)⟩,
             ⟨"G", 1429 / 100, some (100 / 7)⟩] - 100| ≤ 1 / 100) := by
  refine ⟨by norm_num, ?_, ?_⟩
  · norm_num +decide [calculateExpenseSplits, round2]
  · norm_num [sumAmounts, abs_of_nonneg]

/-! ## C8: the failure conditions of `calculateExpenseSplits` -/

/-- **C8**: `calculateExpenseSplits` fails — returning an error and no share
list — exactly when the member list is empty under the Equal policy, a custom
split references a member outside the group (Percentage or Fixed), the
percentage values' sum deviates from `100` by more than `0.01` (Percentage),
the fixed values' sum deviates from the total by more than `0.01` (Fixed), or
the required `customSplits` argument is missing or empty (Percentage or
Fixed); and the sum-mismatch errors carry the expected and the actual total. -/
theorem calculateExpenseSplits_error_iff (t : ℚ) (members : List String)
    (ty : SplitType) (cs : Option (List CustomSplit)) :
    ((∃ err, calculateExpenseSplits t members ty cs = .error err) ↔
      (ty = .equal ∧ members = []) ∨
      ((ty = .percentage ∨ ty = .fixed) ∧ (cs = none ∨ cs = some [])) ∨
      ((ty = .percentage ∨ ty = .fixed) ∧
        ∃ l, cs = some l ∧ ∃ s ∈ l, s.memberId ∉ members) ∨
      (ty = .percentage ∧ ∃ l, cs = some l ∧ |sumValues l - 100| > 1 / 100) ∨
      (ty = .fixed ∧ ∃ l, cs = some l ∧ |sumValues l - t| > 1 / 100)) ∧
    (∀ l, ty = .percentage → cs = some l → l ≠ [] → (∀ s ∈ l, s.memberId ∈ members) →
      |sumValues l - 100| > 1 / 100 →
      calculateExpenseSplits t members ty cs = .error (.sumMismatch 100 (sumValues l))) ∧
    (∀ l, ty = .fixed → cs = some l → l ≠ [] → (∀ s ∈ l, s.memberId ∈ members) →
      |sumValues l - t| > 1 / 100 →
      calculateExpenseSplits t members ty cs = .error (.sumMismatch t (sumValues l))) := by
  have hfv : ∀ l : List CustomSplit,
      l.foldl (fun sum s => sum + s.value) 0 = sumValues l := by
    intro l
    rw [foldl_add_eq_sum (fun s : CustomSplit => s.value) l 0, zero_add]
    rfl
  have hfind_all : ∀ l : List CustomSplit, (∀ s ∈ l, s.memberId ∈ members) →
      l.find? (fun s => !(members.contains s.memberId)) = none := by
    intro l hall
    rw [List.find?_eq_none]
    intro s hs
    simpa using hall s hs
  refine ⟨?_, ?_, ?_⟩
  · cases ty with
    | equal =>
      by_cases hm : members = [] <;> simp [calculateExpenseSplits, hm]
    | percentage =>
      cases cs with
      | none => simp [calculateExpenseSplits]
      | some l =>
        by_cases hl : l = []
        · subst hl
          simp [calculateExpenseSplits]
        · cases hfind : l.find? (fun s => !(members.contains s.memberId)) with
          | some bad =>
            have hbadmem : bad ∈ l := List.mem_of_find?_eq_some hfind
            have hbadp : bad.memberId ∉ members := by
              have := List.find?_some hfind
              simpa using this
            have hval : calculateExpenseSplits t members .percentage (some l)
                = .error (.invalidMember bad.memberId) := by
              simp only [calculateExpenseSplits]
              rw [if_neg hl, hfind]
            rw [hval]
            exact iff_of_true ⟨.invalidMember bad.memberId, rfl⟩
              (Or.inr (Or.inr (Or.inl ⟨Or.inl rfl, l, rfl, bad, hbadmem, hbadp⟩)))
          | none =>
            have hvalid : ∀ s ∈ l, s.memberId ∈ members := by
              rw [List.find?_eq_none] at hfind
              intro s hs
              have := hfind s hs
              simpa using this
            by_cases hsum : |sumValues l - 100| > 1 / 100
            · have hval : calculateExpenseSplits t members .percentage (some l)
                  = .error (.sumMismatch 100 (sumValues l)) := by
                simp only [calculateExpenseSplits]
                rw [if_neg hl, hfind, hfv l, if_pos hsum]
              rw [hval]
              exact iff_of_true ⟨.sumMismatch 100 (sumValues l), rfl⟩
                (Or.inr (Or.inr (Or.inr (Or.inl ⟨rfl, l, rfl, hsum⟩))))
            · have hval : calculateExpenseSplits t members .percentage (some l)
                  = .ok (l.map fun s =>
                    (⟨s.memberId, round2 (t * s.value / 100), some s.value⟩ : Split)) := by
                simp only [calculateExpenseSplits]
                rw [if_neg hl, hfind, hfv l, if_neg hsum]
              rw [hval]
              refine iff_of_false ?_ ?_
              · rintro ⟨err, herr⟩
                exact absurd herr (by simp)
              · rintro (⟨hty, _⟩ | ⟨_, (hcs | hcs)⟩ | ⟨_, l2, hl2, s, hs, hns⟩ |
                  ⟨_, l2, hl2, habs⟩ | ⟨hty, _⟩)
                · cases hty
                · cases hcs
                · exact absurd (Option.some.inj hcs) hl
                · cases Option.some.inj hl2
                  exact absurd (hvalid s hs) hns
                · cases Option.some.inj hl2
                  exact absurd habs hsum
                · cases hty
    | fixed =>
      cases cs with
      | none => simp [calculateExpenseSplits]
      | some l =>
        by_cases hl : l = []
        · subst hl
          simp [calculateExpenseSplits]
        · cases hfind : l.find? (fun s => !(members.contains s.memberId)) with
          | some bad =>
            have hbadmem : bad ∈ l := List.mem_of_find?_eq_some hfind
            have hbadp : bad.memberId ∉ members := by
              have := List.find?_some hfind
              simpa using this
            have hval : calculateExpenseSplits t members .fixed (some l)
                = .error (.invalidMember bad.memberId) := by
              simp only [calculateExpenseSplits]
              rw [if_neg hl, hfind]
            rw [hval]
            exact iff_of_true ⟨.invalidMember bad.memberId, rfl⟩
              (Or.inr (Or.inr (Or.inl ⟨Or.inr rfl, l, rfl, bad, hbadmem, hbadp⟩)))
          | none =>
            have hvalid : ∀ s ∈ l, s.memberId ∈ members := by
              rw [List.find?_eq_none] at hfind
              intro s hs
              have := hfind s hs
              simpa using this
            by_cases hsum : |sumValues l - t| > 1 / 100
            · have hval : calculateExpenseSplits t members .fixed (some l)
                  = .error (.sumMismatch t (sumValues l)) := by
                simp only [calculateExpenseSplits]
                rw [if_neg hl, hfind, hfv l, if_pos hsum]
              rw [hval]
              exact iff_of_true ⟨.sumMismatch t (sumValues l), rfl⟩
                (Or.inr (Or.inr (Or.inr (Or.inr ⟨rfl, l, rfl, hsum⟩))))
            · have hval : calculateExpenseSplits t members .fixed (some l)
                  = .ok (l.map fun s =>
                    (⟨s.memberId, round2 s.value, some (round2 (s.value / t * 100))⟩ : Split)) := by
                simp only [calculateExpenseSplits]
                rw [if_neg hl, hfind, hfv l, if_neg hsum]
              rw [hval]
              refine iff_of_false ?_ ?_
              · rintro ⟨err, herr⟩
                exact absurd herr (by simp)
              · rintro (⟨hty, _⟩ | ⟨_, (hcs | hcs)⟩ | ⟨_, l2, hl2, s, hs, hns⟩ |
                  ⟨hty, _⟩ | ⟨_, l2, hl2, habs⟩)
                · cases hty
                · cases hcs
                · exact absurd (Option.some.inj hcs) hl
                · cases Option.some.inj hl2
                  exact absurd (hvalid s hs) hns
                · cases hty
                · cases Option.some.inj hl2
                  exact absurd habs hsum
  · rintro l rfl rfl hl hall hsum
    simp only [calculateExpenseSplits]
    rw [if_neg hl, hfind_all l hall, hfv l, if_pos hsum]
  · rintro l rfl rfl hl hall hsum
    simp only [calculateExpenseSplits]
    rw [if_neg hl, hfind_all l hall, hfv l, if_pos hsum]

/-- Witness for `calculateExpenseSplits_error_iff`: a percentage split whose
single value `50` missums to `100` fails with the mismatch error naming the
expected total `100` and the actual total `50`. -/
theorem calculateExpenseSplits_error_iff_witness :
    calculateExpenseSplits 100 ["A"] .percentage (some [⟨"A", 50⟩])
      = .error (.sumMismatch 100 (sumValues [⟨"A", 50⟩])) ∧
    (∃ err, calculateExpenseSplits 100 ["A"] .percentage (some [⟨"A", 50⟩]) = .error err) := by
  have h := calculateExpenseSplits_error_iff 100 ["A"] .percentage (some [⟨"A", 50⟩])
  constructor
  · exact h.2.1 [⟨"A", 50⟩] rfl rfl (by decide) (by decide)
      (by norm_num [sumValues, abs_of_nonpos])
  · exact h.1.mpr (Or.inr (Or.inr (Or.inr (Or.inl ⟨rfl, [⟨"A", 50⟩], rfl,
      by norm_num [sumValues, abs_of_nonpos]⟩))))

/-! ## C9 and C10: the frame of `deleteMemberExpenses` -/

theorem forall₂_map_right {α β : Type} (g : α → β) (P : α → β → Prop) (l : List α)
    (h : ∀ a ∈ l, P a (g a)) : List.Forall₂ P l (l.map g) := by
  induction l with
  | nil => exact List.Forall₂.nil
  | cons x t ih =>
    exact List.Forall₂.cons (h x (List.mem_cons_self x t))
      (ih fun a ha => h a (List.mem_cons_of_mem x ha))

theorem redistributeExpense_nil (memberName fallbackPayer : String) (e : Expense) :
    redistributeExpense memberName fallbackPayer [] e = e := by
  simp [redistributeExpense]

/-- **C9**: `deleteMemberExpenses` leaves unchanged every expense whose payer
is not the removed member and whose splits contain no share of the removed
member, and it marks for deletion exactly the settlements whose `fromMember`
or `toMember` is the removed member. -/
theorem deleteMemberExpenses_frame (memberName : String) (remainingMembers : List String)
    (fallbackPayer : String) (groupExpenses : List Expense)
    (groupSettlements : List Settlement) :
    List.Forall₂ (fun e e' =>
        (e.paidBy ≠ memberName ∧ ∀ s ∈ e.splits, s.memberId ≠ memberName) → e' = e)
      groupExpenses
      (deleteMemberExpenses memberName remainingMembers fallbackPayer groupExpenses
        groupSettlements).updatedExpenses ∧
    (∀ st, st ∈ (deleteMemberExpenses memberName remainingMembers fallbackPayer groupExpenses
        groupSettlements).settlementsToDelete ↔
      st ∈ groupSettlements ∧ (st.fromMember = memberName ∨ st.toMember = memberName)) := by
  constructor
  · apply forall₂_map_right
    intro e _ hcond
    rw [if_pos hcond]
  · intro st
    simp [deleteMemberExpenses, List.mem_filter]

/-- Witness for `deleteMemberExpenses_frame`: an expense not involving the
removed member `C` survives untouched and the settlement from `C` is marked. -/
theorem deleteMemberExpenses_frame_witness :
    ((deleteMemberExpenses "C" ["A", "B"] "A"
        [⟨10, "A", .equal, [⟨"A", 10, none⟩]⟩]
        [⟨"C", "A", 5⟩, ⟨"A", "B", 3⟩]).settlementsToDelete =
      [⟨"C", "A", 5⟩]) ∧
    (⟨"C", "A", 5⟩ : Settlement) ∈ (deleteMemberExpenses "C" ["A", "B"] "A"
        [⟨10, "A", .equal, [⟨"A", 10, none⟩]⟩]
        [⟨"C", "A", 5⟩, ⟨"A", "B", 3⟩]).settlementsToDelete := by
  have h := deleteMemberExpenses_frame "C" ["A", "B"] "A"
    [⟨10, "A", .equal, [⟨"A", 10, none⟩]⟩] [⟨"C", "A", 5⟩, ⟨"A", "B", 3⟩]
  refine ⟨by decide, ?_⟩
  exact (h.2 ⟨"C", "A", 5⟩).mpr ⟨by decide, Or.inl rfl⟩

/-- **C10**: when the remaining-member list, after filtering out the removed
member, is empty, every expense is returned exactly as it was — the removed
member may still appear as `paidBy` and in the splits — while the settlements
involving the removed member are still marked for deletion. -/
theorem deleteMemberExpenses_empty_remaining (memberName : String)
    (remainingMembers : List String) (fallbackPayer : String)
    (groupExpenses : List Expense) (groupSettlements : List Settlement)
    (h : remainingMembers.filter (fun m => m ≠ memberName) = []) :
    (deleteMemberExpenses memberName remainingMembers fallbackPayer groupExpenses
        groupSettlements).updatedExpenses = groupExpenses ∧
    (∀ st, st ∈ (deleteMemberExpenses memberName remainingMembers fallbackPayer groupExpenses
        groupSettlements).settlementsToDelete ↔
      st ∈ groupSettlements ∧ (st.fromMember = memberName ∨ st.toMember = memberName)) := by
  constructor
  · show groupExpenses.map _ = groupExpenses
    rw [h]
    have : ∀ e ∈ groupExpenses,
        (if e.paidBy ≠ memberName ∧ ∀ s ∈ e.splits, s.memberId ≠ memberName then e
          else redistributeExpense memberName fallbackPayer [] e) = e := by
      intro e _
      split
      · rfl
      · exact redistributeExpense_nil memberName fallbackPayer e
    rw [List.map_congr_left this]
    exact List.map_id' groupExpenses
  · intro st
    simp [deleteMemberExpenses, List.mem_filter]

/-- Witness for `deleteMemberExpenses_empty_remaining`: removing `C` with no
other member left keeps the expense paid by `C` (with `C`'s share) untouched. -/
theorem deleteMemberExpenses_empty_remaining_witness :
    (["C"] : List String).filter (fun m => m ≠ "C") = [] ∧
      (deleteMemberExpenses "C" ["C"] "A" [⟨100, "C", .equal, [⟨"C", 100, none⟩]⟩]
        [⟨"C", "B", 5⟩]).updatedExpenses = [⟨100, "C", .equal, [⟨"C", 100, none⟩]⟩] := by
  refine ⟨by decide, ?_⟩
  exact (deleteMemberExpenses_empty_remaining "C" ["C"] "A"
    [⟨100, "C", .equal, [⟨"C", 100, none⟩]⟩] [⟨"C", "B", 5⟩] (by decide)).1

/-! ## C2: redistribution preserves totals and removes the member -/

theorem sumAmounts_nil : sumAmounts [] = 0 := rfl

theorem sumAmounts_cons (s : Split) (l : List Split) :
    sumAmounts (s :: l) = s.amount + sumAmounts l := by
  simp [sumAmounts]

theorem sumAmounts_bumpLastAmount (d : ℚ) :
    ∀ (l : List Split) (hl : l ≠ []),
      sumAmounts (bumpLastAmount d l) =
        sumAmounts l - (l.getLast hl).amount + round2 ((l.getLast hl).amount + d) := by
  intro l
  induction l with
  | nil => intro hl; exact absurd rfl hl
  | cons s rest ih =>
    intro hcons
    cases rest with
    | nil =>
      simp [bumpLastAmount, sumAmounts, toRounded]
    | cons s2 rest2 =>
      have hne : s2 :: rest2 ≠ [] := by simp
      rw [show bumpLastAmount d (s :: s2 :: rest2) = s :: bumpLastAmount d (s2 :: rest2) from rfl]
      rw [sumAmounts_cons, sumAmounts_cons, ih hne, List.getLast_cons hne]
      ring

theorem bumpLastAmount_memberIds (d : ℚ) :
    ∀ l : List Split, (bumpLastAmount d l).map (·.memberId) = l.map (·.memberId) := by
  intro l
  induction l with
  | nil => rfl
  | cons s rest ih =>
    cases rest with
    | nil => rfl
    | cons s2 rest2 =>
      rw [show bumpLastAmount d (s :: s2 :: rest2) = s :: bumpLastAmount d (s2 :: rest2) from rfl]
      simp [ih]

theorem applyDriftFix_memberIds (t : ℚ) (l : List Split) :
    (applyDriftFix t l).map (·.memberId) = l.map (·.memberId) := by
  rw [applyDriftFix]
  split
  · exact bumpLastAmount_memberIds _ l
  · rfl

theorem applyDriftFix_sum_close (t : ℚ) (l : List Split) (hl : l ≠ []) :
    |sumAmounts (applyDriftFix t l) - t| ≤ 1 / 100 := by
  rw [applyDriftFix]
  rw [foldl_add_eq_sum (fun s : Split => s.amount) l 0, zero_add]
  have hS : (l.map fun s : Split => s.amount).sum = sumAmounts l := rfl
  rw [hS]
  split
  next hif =>
    rw [sumAmounts_bumpLastAmount (toRounded (t - sumAmounts l)) l hl]
    have h1 := round2_sub_abs_le ((l.getLast hl).amount + toRounded (t - sumAmounts l))
    have h2 := round2_sub_abs_le (t - sumAmounts l)
    rw [toRounded] at *
    set a := (l.getLast hl).amount
    set S := sumAmounts l
    set r1 := round2 (a + round2 (t - S))
    set r2 := round2 (t - S)
    have e : S - a + r1 - t = (r1 - (a + r2)) + (r2 - (t - S)) := by ring
    rw [e]
    calc |(r1 - (a + r2)) + (r2 - (t - S))|
        ≤ |r1 - (a + r2)| + |r2 - (t - S)| := abs_add _ _
      _ ≤ 1 / 200 + 1 / 200 := add_le_add h1 h2
      _ = 1 / 100 := by norm_num
  next hif =>
    have hlen : 0 < l.length := List.length_pos.mpr hl
    have habs : ¬(0 < |toRounded (t - sumAmounts l)|) := by
      intro hpos
      exact hif ⟨hlen, hpos⟩
    have hz : toRounded (t - sumAmounts l) = 0 := by
      rw [not_lt] at habs
      exact abs_eq_zero.mp (le_antisymm habs (abs_nonneg _))
    rw [toRounded] at hz
    have := round2_eq_zero_abs_le hz
    calc |sumAmounts l - t| = |t - sumAmounts l| := abs_sub_comm _ _
      _ ≤ 1 / 200 := this
      _ ≤ 1 / 100 := by norm_num

theorem splitsProps_of_driftFix (m : String) (nm : List String) (target : ℚ)
    (l : List Split) (hids : l.map (·.memberId) = nm) (hnm : nm ≠ [])
    (hnm2 : ∀ x ∈ nm, x ≠ m) :
    |sumAmounts (applyDriftFix target l) - target| ≤ 1 / 100 ∧
    ∀ s ∈ applyDriftFix target l, s.memberId ≠ m := by
  have hl : l ≠ [] := by
    rintro rfl
    exact hnm (by simpa using hids.symm)
  refine ⟨applyDriftFix_sum_close target l hl, ?_⟩
  intro s hs
  have hmem : s.memberId ∈ (applyDriftFix target l).map (·.memberId) :=
    List.mem_map_of_mem _ hs
  rw [applyDriftFix_memberIds, hids] at hmem
  exact hnm2 _ hmem

theorem buildEqualSplits_eq_driftFix (nm : List String) (total : ℚ) :
    buildEqualSplits nm total = applyDriftFix total (nm.map fun memberId =>
      (⟨memberId, toRounded (total / nm.length), some (toRounded (100 / nm.length))⟩ : Split)) :=
  rfl

theorem splitsProps_of_buildEqual (m : String) (nm : List String) (total : ℚ)
    (hnm : nm ≠ []) (hnm2 : ∀ x ∈ nm, x ≠ m) :
    |sumAmounts (buildEqualSplits nm total) - total| ≤ 1 / 100 ∧
    ∀ s ∈ buildEqualSplits nm total, s.memberId ≠ m := by
  rw [buildEqualSplits_eq_driftFix]
  apply splitsProps_of_driftFix m nm total _ _ hnm hnm2
  simp [Function.comp_def]

theorem fst_of_lookup_match (o : Option Split) (x : String) :
    (match o with
      | some s => (x, s.amount)
      | none => (x, (0 : ℚ))).1 = x := by
  cases o <;> rfl

theorem redistributeExpense_props (m fb : String) (nm : List String) (e : Expense)
    (hnm : nm ≠ []) (hfb : fb ≠ m) (hnm2 : ∀ x ∈ nm, x ≠ m) :
    |sumAmounts (redistributeExpense m fb nm e).splits - e.amount| ≤ 1 / 100 ∧
    (redistributeExpense m fb nm e).paidBy ≠ m ∧
    ∀ s ∈ (redistributeExpense m fb nm e).splits, s.memberId ≠ m := by
  obtain ⟨amt, pb, ty, splits⟩ := e
  rw [redistributeExpense, if_neg hnm]
  have hpaid : (if pb = m then fb else pb) ≠ m := by
    split
    · exact hfb
    · assumption
  cases ty with
  | equal =>
    have h := splitsProps_of_buildEqual m nm amt hnm hnm2
    exact ⟨h.1, hpaid, h.2⟩
  | percentage =>
    dsimp only
    split
    · have h := splitsProps_of_buildEqual m nm amt hnm hnm2
      exact ⟨h.1, hpaid, h.2⟩
    · refine ⟨(splitsProps_of_driftFix m nm amt _ ?_ hnm hnm2).1, hpaid,
        (splitsProps_of_driftFix m nm amt _ ?_ hnm hnm2).2⟩ <;>
        simp [Function.comp_def]
  | fixed =>
    dsimp only
    split
    · have h := splitsProps_of_buildEqual m nm amt hnm hnm2
      exact ⟨h.1, hpaid, h.2⟩
    · refine ⟨(splitsProps_of_driftFix m nm amt _ ?_ hnm hnm2).1, hpaid,
        (splitsProps_of_driftFix m nm amt _ ?_ hnm hnm2).2⟩ <;>
        · simp only [List.map_map, Function.comp_def]
          exact (List.map_congr_left fun x _ => fst_of_lookup_match _ x).trans
            (List.map_id' nm)

/-- **C2** (amended): provided the remaining-member list, after filtering out
the removed member, is non-empty and the fallback payer is not the removed
member, every expense affected by the removal is rewritten so that its share
amounts sum to the original amount within `0.01` and the removed member
appears neither as `paidBy` nor in the splits. -/
theorem deleteMemberExpenses_redistribution (memberName : String)
    (remainingMembers : List String) (fallbackPayer : String)
    (groupExpenses : List Expense) (groupSettlements : List Settlement)
    (hrem : remainingMembers.filter (fun x => x ≠ memberName) ≠ [])
    (hfb : fallbackPayer ≠ memberName) :
    List.Forall₂ (fun e e' =>
        (e.paidBy = memberName ∨ ∃ s ∈ e.splits, s.memberId = memberName) →
          |sumAmounts e'.splits - e.amount| ≤ 1 / 100 ∧ e'.paidBy ≠ memberName ∧
          ∀ s ∈ e'.splits, s.memberId ≠ memberName)
      groupExpenses
      (deleteMemberExpenses memberName remainingMembers fallbackPayer groupExpenses
        groupSettlements).updatedExpenses := by
  apply forall₂_map_right
  intro e _ haff
  have hcond : ¬(e.paidBy ≠ memberName ∧ ∀ s ∈ e.splits, s.memberId ≠ memberName) := by
    rcases haff with h | ⟨s, hs, hsm⟩
    · rintro ⟨h1, _⟩
      exact h1 h
    · rintro ⟨_, h2⟩
      exact h2 s hs hsm
  rw [if_neg hcond]
  have hnm2 : ∀ x ∈ remainingMembers.filter (fun x => x ≠ memberName), x ≠ memberName := by
    intro x hx
    have := List.of_mem_filter hx
    simpa using this
  exact redistributeExpense_props memberName fallbackPayer _ e hrem hfb hnm2

/-- Witness for `deleteMemberExpenses_redistribution`: removing `C` from an
expense of `100` paid by `C` and shared `A:30, C:70` rewrites it over `[A,B]`. -/
theorem deleteMemberExpenses_redistribution_witness :
    (["A", "B"] : List String).filter (fun x => x ≠ "C") ≠ [] ∧ ("A" : String) ≠ "C" ∧
      List.Forall₂ (fun (e e' : Expense) =>
          (e.paidBy = "C" ∨ ∃ s ∈ e.splits, s.memberId = "C") →
            |sumAmounts e'.splits - e.amount| ≤ 1 / 100 ∧ e'.paidBy ≠ "C" ∧
            ∀ s ∈ e'.splits, s.memberId ≠ "C")
        [⟨100, "C", .equal, [⟨"A", 30, none⟩, ⟨"C", 70, none⟩]⟩]
        (deleteMemberExpenses "C" ["A", "B"] "A"
          [⟨100, "C", .equal, [⟨"A", 30, none⟩, ⟨"C", 70, none⟩]⟩] []).updatedExpenses :=
  ⟨by decide, by decide,
    deleteMemberExpenses_redistribution "C" ["A", "B"] "A"
      [⟨100, "C", .equal, [⟨"A", 30, none⟩, ⟨"C", 70, none⟩]⟩] [] (by decide) (by decide)⟩

/-- Counterexample to **C2** as stated: when the remaining-member list is
empty, the affected expense paid by the removed member `C` is returned
unchanged, so `C` still appears as `paidBy` and in the splits. -/
theorem deleteMemberExpenses_redistribution_counterexample :
    (deleteMemberExpenses "C" [] "A" [⟨100, "C", .equal, [⟨"C", 100, none⟩]⟩]
        []).updatedExpenses = [⟨100, "C", .equal, [⟨"C", 100, none⟩]⟩] ∧
    ((⟨100, "C", .equal, [⟨"C", 100, none⟩]⟩ : Expense).paidBy = "C" ∨
      ∃ s ∈ (⟨100, "C", .equal, [⟨"C", 100, none⟩]⟩ : Expense).splits, s.memberId = "C") ∧
    (⟨100, "C", .equal, [⟨"C", 100, none⟩]⟩ : Expense).paidBy = "C" := by
  refine ⟨?_, Or.inl rfl, rfl⟩
  norm_num +decide [deleteMemberExpenses, redistributeExpense]

/-! ## C4: the sum of all balances -/

theorem sumOver_update (members : List String) (f : String → ℚ) (x : String) (v : ℚ)
    (hnd : members.Nodup) (hx : x ∈ members) :
    sumOver members (Function.update f x v) = sumOver members f - f x + v := by
  induction members with
  | nil => cases hx
  | cons y t ih =>
    rcases List.mem_cons.mp hx with rfl | hxt
    · have hyt : x ∉ t := (List.nodup_cons.mp hnd).1
      have hmap : t.map (Function.update f x v) = t.map f := by
        apply List.map_congr_left
        intro a ha
        have hax : a ≠ x := fun hax => hyt (hax ▸ ha)
        exact Function.update_noteq hax v f
      simp only [sumOver, List.map_cons, List.sum_cons, hmap, Function.update_same]
      ring
    · have hxy : x ≠ y := by
        rintro rfl
        exact (List.nodup_cons.mp hnd).1 hxt
      have ihh := ih (List.nodup_cons.mp hnd).2 hxt
      simp only [sumOver, List.map_cons, List.sum_cons] at ihh ⊢
      rw [Function.update_noteq (Ne.symm hxy) v f, ihh]
      ring

theorem sumOver_applySplit (members : List String) (f : String → ℚ) (s : Split)
    (hnd : members.Nodup) (hs : s.memberId ∈ members) :
    sumOver members (applySplitToBalances f s) = sumOver members f - s.amount := by
  rw [applySplitToBalances, sumOver_update members f s.memberId _ hnd hs]
  ring

theorem sumOver_foldl_splits (members : List String) (hnd : members.Nodup) :
    ∀ (splits : List Split) (f : String → ℚ),
      (∀ s ∈ splits, s.memberId ∈ members) →
      sumOver members (splits.foldl applySplitToBalances f) =
        sumOver members f - sumAmounts splits := by
  intro splits
  induction splits with
  | nil => intro f _; simp [sumAmounts]
  | cons s rest ih =>
    intro f h
    rw [List.foldl_cons, ih _ (fun a ha => h a (List.mem_cons_of_mem s ha)),
      sumOver_applySplit members f s hnd (h s (List.mem_cons_self s rest)), sumAmounts_cons]
    ring

theorem sumOver_applyExpense (members : List String) (f : String → ℚ) (e : Expense)
    (hnd : members.Nodup) (hp : e.paidBy ∈ members)
    (hs : ∀ s ∈ e.splits, s.memberId ∈ members) :
    sumOver members (applyExpenseToBalances f e) =
      sumOver members f + expenseDelta e := by
  rw [applyExpenseToBalances, sumOver_foldl_splits members hnd e.splits _ hs,
    sumOver_update members f e.paidBy _ hnd hp, expenseDelta]
  ring

theorem sumOver_foldl_expenses (members : List String) (hnd : members.Nodup) :
    ∀ (expenses : List Expense) (f : String → ℚ),
      (∀ e ∈ expenses, e.paidBy ∈ members ∧ ∀ s ∈ e.splits, s.memberId ∈ members) →
      sumOver members (expenses.foldl applyExpenseToBalances f) =
        sumOver members f + (expenses.map expenseDelta).sum := by
  intro expenses
  induction expenses with
  | nil => intro f _; simp
  | cons e rest ih =>
    intro f h
    rw [List.foldl_cons, ih _ (fun a ha => h a (List.mem_cons_of_mem e ha)),
      sumOver_applyExpense members f e hnd (h e (List.mem_cons_self e rest)).1
        (h e (List.mem_cons_self e rest)).2,
      List.map_cons, List.sum_cons]
    ring

theorem sumOver_applySettlement (members : List String) (f : String → ℚ) (st : Settlement)
    (hnd : members.Nodup) (hf : st.fromMember ∈ members) (ht : st.toMember ∈ members) :
    sumOver members (applySettlementToBalances f st) = sumOver members f := by
  rw [applySettlementToBalances]
  rw [sumOver_update members _ st.toMember _ hnd ht,
    sumOver_update members f st.fromMember _ hnd hf]
  ring

theorem sumOver_foldl_settlements (members : List String) (hnd : members.Nodup) :
    ∀ (settlements : List Settlement) (f : String → ℚ),
      (∀ st ∈ settlements, st.fromMember ∈ members ∧ st.toMember ∈ members) →
      sumOver members (settlements.foldl applySettlementToBalances f) =
        sumOver members f := by
  intro settlements
  induction settlements with
  | nil => intro f _; rfl
  | cons st rest ih =>
    intro f h
    rw [List.foldl_cons, ih _ (fun a ha => h a (List.mem_cons_of_mem st ha)),
      sumOver_applySettlement members f st hnd (h st (List.mem_cons_self st rest)).1
        (h st (List.mem_cons_self st rest)).2]

theorem initialBalances_apply (members : List String) (x : String) :
    initialBalances members x = 0 := by
  rw [initialBalances]
  suffices h : ∀ (l : List String) (f : String → ℚ), (∀ y, f y = 0) →
      (l.foldl (fun acc m => Function.update acc m 0) f) x = 0 by
    exact h members (fun _ => 0) (fun _ => rfl)
  intro l
  induction l with
  | nil => intro f hf; exact hf x
  | cons a t ih =>
    intro f hf
    rw [List.foldl_cons]
    apply ih
    intro y
    by_cases hy : y = a
    · subst hy
      exact Function.update_same y 0 f
    · rw [Function.update_noteq hy 0 f]
      exact hf y

theorem sumBalances_calculateBalances (members : List String) (expenses : List Expense)
    (settlements : List Settlement) :
    sumBalances (calculateBalances members expenses settlements) =
      sumOver members (finalBalances members expenses settlements) := by
  simp [sumBalances, calculateBalances, sumOver, List.map_map, Function.comp_def]

/-- **C4** (amended): for every duplicate-free member list and record sets
that are closed transfers among the listed members, with each expense's split
amounts summing to its amount within `0.01`, the balance amounts returned by
`calculateBalances` sum to `0` within `0.01 * (number of expenses)`. -/
theorem calculateBalances_sum_close (members : List String) (expenses : List Expense)
    (settlements : List Settlement) (hnd : members.Nodup)
    (hexp : ∀ e ∈ expenses, e.paidBy ∈ members ∧ (∀ s ∈ e.splits, s.memberId ∈ members) ∧
      |sumAmounts e.splits - e.amount| ≤ 1 / 100)
    (hset : ∀ st ∈ settlements, st.fromMember ∈ members ∧ st.toMember ∈ members) :
    |sumBalances (calculateBalances members expenses settlements)| ≤
      (expenses.length : ℚ) * (1 / 100) := by
  rw [sumBalances_calculateBalances, finalBalances,
    sumOver_foldl_settlements members hnd settlements _ hset,
    sumOver_foldl_expenses members hnd expenses _
      (fun e he => ⟨(hexp e he).1, (hexp e he).2.1⟩)]
  have hinit : sumOver members (initialBalances members) = 0 := by
    have : members.map (initialBalances members) = members.map fun _ => (0 : ℚ) :=
      List.map_congr_left fun x _ => initialBalances_apply members x
    rw [sumOver, this, sum_map_const]
    ring
  rw [hinit, zero_add]
  apply abs_sum_le_length_mul
  intro e he
  rw [expenseDelta, abs_sub_comm]
  exact (hexp e he).2.2

/-- Witness for `calculateBalances_sum_close`: one expense of `1` paid by `A`
and owed by `B` gives balances `A:+1, B:-1` summing to `0 ≤ 0.01`. -/
theorem calculateBalances_sum_close_witness :
    (["A", "B"] : List String).Nodup ∧
      sumBalances (calculateBalances ["A", "B"]
        [⟨1, "A", .fixed, [⟨"B", 1, none⟩]⟩] []) = 0 ∧
      |sumBalances (calculateBalances ["A", "B"]
        [⟨1, "A", .fixed, [⟨"B", 1, none⟩]⟩] [])| ≤
        (([⟨1, "A", .fixed, [⟨"B", 1, none⟩]⟩] : List Expense).length : ℚ) * (1 / 100) := by
  refine ⟨by decide, ?_, ?_⟩
  · norm_num +decide [sumBalances, calculateBalances, finalBalances, initialBalances,
      applyExpenseToBalances, applySplitToBalances, Function.update]
  · apply calculateBalances_sum_close ["A", "B"] _ _ (by decide)
    · intro e he
      rw [List.mem_singleton] at he
      subst he
      refine ⟨by decide, by decide, ?_⟩
      norm_num [sumAmounts]
    · intro st hst
      cases hst

/-- Counterexample to **C4** as stated: two expenses of `1` paid by `A` whose
single split `B:0.99` is within `0.01` of the amount give balances
`A:+2, B:-1.98`, summing to `0.02 > 0.01`. -/
theorem calculateBalances_sum_counterexample :
    (∀ e ∈ ([⟨1, "A", .fixed, [⟨"B", 99/100, none⟩]⟩,
        ⟨1, "A", .fixed, [⟨"B", 99/100, none⟩]⟩] : List Expense),
      e.paidBy ∈ (["A", "B"] : List String) ∧
        (∀ s ∈ e.splits, s.memberId ∈ (["A", "B"] : List String)) ∧
        |sumAmounts e.splits - e.amount| ≤ 1 / 100) ∧
    sumBalances (calculateBalances ["A", "B"]
      [⟨1, "A", .fixed, [⟨"B", 99/100, none⟩]⟩,
       ⟨1, "A", .fixed, [⟨"B", 99/100, none⟩]⟩] []) = 1 / 50 ∧
    ¬(|(1 : ℚ) / 50| ≤ 1 / 100) := by
  refine ⟨?_, ?_, by norm_num [abs_of_nonneg]⟩
  · intro e he
    rcases List.mem_cons.mp he with rfl | he2
    · exact ⟨by decide, by decide, by norm_num [sumAmounts, abs_of_nonpos]⟩
    rcases List.mem_cons.mp he2 with rfl | he3
    · exact ⟨by decide, by decide, by norm_num [sumAmounts, abs_of_nonpos]⟩
    · cases he3
  · norm_num +decide [sumBalances, calculateBalances, finalBalances, initialBalances,
      applyExpenseToBalances, applySplitToBalances, Function.update]

/-! ## C6: the number of emitted transfers -/

theorem matchDebts_length : ∀ (cl dl : List Balance),
    (matchDebts cl dl).length ≤ cl.length + dl.length - 1 := by
  suffices H : ∀ (n : ℕ) (cl dl : List Balance), cl.length + dl.length ≤ n →
      (matchDebts cl dl).length ≤ cl.length + dl.length - 1 by
    intro cl dl
    exact H (cl.length + dl.length) cl dl le_rfl
  intro n
  induction n with
  | zero =>
    intro cl dl h
    cases cl with
    | nil => simp [matchDebts]
    | cons c cs => simp only [List.length_cons] at h; omega
  | succ n ih =>
    intro cl dl h
    cases cl with
    | nil => simp [matchDebts]
    | cons c cs =>
      cases dl with
      | nil => simp [matchDebts]
      | cons d ds =>
        have i1 := ih cs ds (by simp only [List.length_cons] at h; omega)
        have i2 := ih cs (⟨d.memberId, d.amount - min c.amount d.amount⟩ :: ds)
          (by simp only [List.length_cons] at h ⊢; omega)
        have i3 := ih (⟨c.memberId, c.amount - min c.amount d.amount⟩ :: cs) ds
          (by simp only [List.length_cons] at h ⊢; omega)
        simp only [matchDebts]
        split_ifs <;>
          simp only [List.length_append, List.length_cons, List.length_nil] at i1 i2 i3 ⊢ <;>
          omega

theorem insertDescByAmount_length (b : Balance) :
    ∀ l : List Balance, (insertDescByAmount b l).length = l.length + 1 := by
  intro l
  induction l with
  | nil => rfl
  | cons c rest ih =>
    rw [insertDescByAmount]
    split
    · simp [ih]
    · simp

theorem sortByAmountDesc_length (l : List Balance) :
    (sortByAmountDesc l).length = l.length := by
  rw [sortByAmountDesc]
  suffices H : ∀ (l acc : List Balance),
      (l.foldl (fun acc b => insertDescByAmount b acc) acc).length = acc.length + l.length by
    simpa using H l []
  intro l
  induction l with
  | nil => intro acc; simp
  | cons b rest ih =>
    intro acc
    rw [List.foldl_cons, ih, insertDescByAmount_length]
    simp only [List.length_cons]
    omega

/-- **C6** (amended): for every balance list, the number of `SimplifiedDebt`s
returned by `simplifyDebts` is at most `C + D - 1`, where `C` is the number of
creditors (`amount > 0.01`) and `D` the number of debtors (`amount < -0.01`);
the claimed bound `max C D` does not hold. -/
theorem simplifyDebts_length_le (balances : List Balance) :
    (simplifyDebts balances).length ≤
      (balances.filter fun b => b.amount > 1 / 100).length +
      (balances.filter fun b => b.amount < -(1 / 100)).length - 1 := by
  have h1 : (creditorsOf balances).length =
      (balances.filter fun b => b.amount > 1 / 100).length := by
    rw [creditorsOf, sortByAmountDesc_length]
  have h2 : (debtorsOf balances).length =
      (balances.filter fun b => b.amount < -(1 / 100)).length := by
    rw [debtorsOf, sortByAmountDesc_length, List.length_map]
  calc (simplifyDebts balances).length
      ≤ (creditorsOf balances).length + (debtorsOf balances).length - 1 :=
        matchDebts_length _ _
    _ = _ := by rw [h1, h2]

/-- Counterexample to **C6** as stated: balances `[+2, +2, -3, -1]` have two
creditors and two debtors but produce three transfers, exceeding
`max(|creditors|, |debtors|) = 2`. -/
theorem simplifyDebts_count_counterexample :
    (simplifyDebts [⟨"A", 2⟩, ⟨"B", 2⟩, ⟨"C", -3⟩, ⟨"D", -1⟩]).length = 3 ∧
    (([⟨"A", 2⟩, ⟨"B", 2⟩, ⟨"C", -3⟩, ⟨"D", -1⟩] : List Balance).filter
      fun b => b.amount > 1 / 100).length = 2 ∧
    (([⟨"A", 2⟩, ⟨"B", 2⟩, ⟨"C", -3⟩, ⟨"D", -1⟩] : List Balance).filter
      fun b => b.amount < -(1 / 100)).length = 2 ∧
    ¬((3 : ℕ) ≤ max 2 2) := by
  refine ⟨?_, ?_, ?_, by norm_num⟩ <;>
    norm_num +decide [simplifyDebts, creditorsOf, debtorsOf, sortByAmountDesc,
      insertDescByAmount, matchDebts, round2, List.filter]

/-! ## C5: settlement correctness fails on the code -/

/-- **C5** (evaluation at the failing input): the balances
`[A:+0.03, B:+0.03, C:-0.02, D:-0.02, E:-0.02]` sum to `0` exactly, yet
`simplifyDebts` returns only `[C→A:0.02, E→B:0.02]`; applying those transfers
leaves `D` at `-0.02`, more than `0.01` away from zero.  (The loop's two
sub-cent matches of `0.01` are subtracted from the running remainders without
emitting a transfer, losing `D`'s debt.) -/
theorem simplifyDebts_leaves_unsettled_balance :
    sumBalances [⟨"A", 3 / 100⟩, ⟨"B", 3 / 100⟩, ⟨"C", -(2 / 100)⟩, ⟨"D", -(2 / 100)⟩,
      ⟨"E", -(2 / 100)⟩] = 0 ∧
    simplifyDebts [⟨"A", 3 / 100⟩, ⟨"B", 3 / 100⟩, ⟨"C", -(2 / 100)⟩, ⟨"D", -(2 / 100)⟩,
      ⟨"E", -(2 / 100)⟩] = [⟨"C", "A", 2 / 100⟩, ⟨"E", "B", 2 / 100⟩] ∧
    (applyDebts (simplifyDebts [⟨"A", 3 / 100⟩, ⟨"B", 3 / 100⟩, ⟨"C", -(2 / 100)⟩,
      ⟨"D", -(2 / 100)⟩, ⟨"E", -(2 / 100)⟩]) ⟨"D", -(2 / 100)⟩).amount = -(2 / 100) ∧
    ¬(|(applyDebts (simplifyDebts [⟨"A", 3 / 100⟩, ⟨"B", 3 / 100⟩, ⟨"C", -(2 / 100)⟩,
      ⟨"D", -(2 / 100)⟩, ⟨"E", -(2 / 100)⟩]) ⟨"D", -(2 / 100)⟩).amount| ≤ 1 / 100) := by
  refine ⟨?_, ?_, ?_, ?_⟩ <;>
    norm_num +decide [sumBalances, simplifyDebts, creditorsOf, debtorsOf, sortByAmountDesc,
      insertDescByAmount, matchDebts, round2, applyDebts, List.filter, abs_of_nonpos]

/-! ## C7: the percentage redistribution rule -/

theorem bumpLastPair_zero : ∀ l : List (String × ℚ), bumpLastPair 0 l = l := by
  intro l
  induction l with
  | nil => rfl
  | cons p rest ih =>
    cases rest with
    | nil => simp [bumpLastPair]
    | cons p2 rest2 =>
      rw [show bumpLastPair 0 (p :: p2 :: rest2) = p :: bumpLastPair 0 (p2 :: rest2) from rfl, ih]

theorem proj_bumpLastAmount (d : ℚ) (hd : IsCent d) :
    ∀ l : List Split, (∀ s ∈ l, IsCent s.amount) →
      (bumpLastAmount d l).map sharePair = bumpLastPair d (l.map sharePair) := by
  intro l
  induction l with
  | nil => intro _; rfl
  | cons s rest ih =>
    intro hc
    cases rest with
    | nil =>
      have hcent : IsCent (s.amount + d) := (hc s (List.mem_cons_self s [])).add hd
      simp [bumpLastAmount, bumpLastPair, sharePair, toRounded, hcent.round2_eq]
    | cons s2 rest2 =>
      rw [show bumpLastAmount d (s :: s2 :: rest2) = s :: bumpLastAmount d (s2 :: rest2) from rfl]
      rw [List.map_cons, ih fun a ha => hc a (List.mem_cons_of_mem s ha), List.map_cons]
      rfl

theorem isCent_sumAmounts (l : List Split) (hc : ∀ s ∈ l, IsCent s.amount) :
    IsCent (sumAmounts l) := by
  apply isCent_sum
  intro q hq
  obtain ⟨s, hs, rfl⟩ := List.mem_map.mp hq
  exact hc s hs

theorem proj_applyDriftFix (t : ℚ) (l : List Split) (hl : l ≠ []) (ht : IsCent t)
    (hc : ∀ s ∈ l, IsCent s.amount) :
    (applyDriftFix t l).map sharePair = bumpLastPair (t - sumAmounts l) (l.map sharePair) := by
  have hS : IsCent (sumAmounts l) := isCent_sumAmounts l hc
  have hdc : IsCent (t - sumAmounts l) := ht.sub hS
  rw [applyDriftFix]
  rw [foldl_add_eq_sum (fun s : Split => s.amount) l 0, zero_add]
  have hSS : (l.map fun s : Split => s.amount).sum = sumAmounts l := rfl
  rw [hSS]
  have hround : toRounded (t - sumAmounts l) = t - sumAmounts l := hdc.round2_eq
  split
  next hif =>
    rw [proj_bumpLastAmount (toRounded (t - sumAmounts l)) (by exact isCent_round2 _) l hc,
      hround]
  next hif =>
    have hlen : 0 < l.length := List.length_pos.mpr hl
    have hz : toRounded (t - sumAmounts l) = 0 := by
      by_contra hne
      exact hif ⟨hlen, abs_pos.mpr hne⟩
    rw [hround] at hz
    rw [hz, bumpLastPair_zero]

/-- **C7**: on a percentage-split expense with a cent-valued amount and a
non-empty remaining-member list, the rewritten shares of `redistributeExpense`
are exactly those described by the specification's percentage rule
(`specPercentageRedistribution`). -/
theorem redistributeExpense_percentage_spec (m fb : String) (nm : List String)
    (e : Expense) (hty : e.splitType = .percentage) (hnm : nm ≠ [])
    (hcent : IsCent e.amount) :
    ((redistributeExpense m fb nm e).splits).map sharePair =
      specPercentageRedistribution m nm e := by
  obtain ⟨amt, pb, ty, splits⟩ := e
  cases ty <;> try cases hty
  rw [redistributeExpense, if_neg hnm, specPercentageRedistribution]
  dsimp only
  rw [foldl_add_eq_sum (fun p : String × ℚ => p.2), zero_add]
  simp only [List.map_map, Function.comp_def]
  split
  next hTP =>
    rfl
  next hTP =>
    dsimp only
    rw [proj_applyDriftFix _ _ (by simpa using hnm) hcent ?hc]
    case hc =>
      intro s hs
      obtain ⟨p, _, rfl⟩ := List.mem_map.mp hs
      exact isCent_round2 _
    refine congrArg₂ bumpLastPair ?_ ?_
    · simp [sumAmounts, List.map_map, Function.comp_def, toRounded, sharePair]
    · simp [List.map_map, Function.comp_def, toRounded, sharePair]

/-- Witness for `redistributeExpense_percentage_spec`: removing `C` from the
percentage split `total=100, {A:50, B:30, C:20}` re-normalizes `{A:50, B:30}`
to `{A:62.5, B:37.5}` and yields amounts `A:62.50, B:37.50`. -/
theorem redistributeExpense_percentage_spec_witness :
    (⟨100, "A", .percentage, [⟨"A", 50, some 50⟩, ⟨"B", 30, some 30⟩,
        ⟨"C", 20, some 20⟩]⟩ : Expense).splitType = .percentage ∧
    (["A", "B"] : List String) ≠ [] ∧ IsCent (100 : ℚ) ∧
    ((redistributeExpense "C" "A" ["A", "B"] ⟨100, "A", .percentage,
        [⟨"A", 50, some 50⟩, ⟨"B", 30, some 30⟩, ⟨"C", 20, some 20⟩]⟩).splits).map sharePair
      = specPercentageRedistribution "C" ["A", "B"] ⟨100, "A", .percentage,
        [⟨"A", 50, some 50⟩, ⟨"B", 30, some 30⟩, ⟨"C", 20, some 20⟩]⟩ ∧
    ((redistributeExpense "C" "A" ["A", "B"] ⟨100, "A", .percentage,
        [⟨"A", 50, some 50⟩, ⟨"B", 30, some 30⟩, ⟨"C", 20, some 20⟩]⟩).splits).map sharePair
      = [("A", 125 / 2), ("B", 75 / 2)] := by
  refine ⟨rfl, by decide, ⟨10000, by norm_num⟩, ?_, ?_⟩
  · exact redistributeExpense_percentage_spec "C" "A" ["A", "B"] _ rfl (by decide)
      ⟨10000, by norm_num⟩
  · norm_num +decide [redistributeExpense, lookupSplit, applyDriftFix, bumpLastAmount,
      toRounded, round2, sharePair, List.find?, List.filter]

end ExpenseSplitter
